import Mathlib

/-!
Verification development for the `tracks_downloader` repository.

This file gives a shallow embedding, in Lean, of the core of the program:

* the Correlation Engine of `src/telegram_client.py` (the pending-request
  map, FIFO matching, content-similarity matching, the button-prompt
  re-registration and the safety-valve cleanup);
* the Session State Machine of `src/progress_tracker.py` (track statuses,
  per-track progress records, status updates and the persisted JSON form);
* the slicing and batch-timeout logic of `src/main.py`.

Python `dict`s are modelled as insertion-ordered association lists,
`datetime` values as integers (seconds), and floats as rationals.  The
external similarity primitive `fuzz.token_sort_ratio` (from the
`fuzzywuzzy` library, not part of this repository) is a parameter
`sim : String → String → ℚ` of every definition that needs it; the
repository's own arithmetic around it is embedded exactly.
-/

namespace TracksDownloader

/-- `Track` dataclass from `src/spotify_api.py` (the fields the core uses). -/
structure Track where
  id : String
  name : String
  artists : List String
  album : String
  url : String
  duration_ms : Nat
deriving DecidableEq, Repr

/-- `Track.artist_string` property: `", ".join(self.artists)`. -/
def Track.artist_string (t : Track) : String :=
  String.intercalate ", " t.artists

/-- `PendingRequest` dataclass from `src/telegram_client.py`. -/
structure PendingRequest where
  track : Track
  track_name : String
  sent_at : Int
  message_id : Nat
deriving DecidableEq, Repr

/-- The `pending_responses : Dict[str, PendingRequest]` dict, modelled as an
insertion-ordered association list. -/
abbrev PendingMap := List (String × PendingRequest)

/-- Lookup in an insertion-ordered dict (first entry with the key). -/
def alistLookup {α : Type} (k : String) : List (String × α) → Option α
  | [] => none
  | kv :: rest => if kv.1 = k then some kv.2 else alistLookup k rest

/-- `d[k] = v` on a Python dict: overwrite in place when the key exists,
append otherwise. -/
def alistInsert {α : Type} (k : String) (v : α) (m : List (String × α)) :
    List (String × α) :=
  if m.any (fun kv => kv.1 == k) then
    m.map (fun kv => if kv.1 = k then (k, v) else kv)
  else m ++ [(k, v)]

/-- `del d[k]` on a Python dict (order of the other entries preserved). -/
def alistErase {α : Type} (k : String) (m : List (String × α)) :
    List (String × α) :=
  m.filter (fun kv => kv.1 != k)

/-- The keys of a dict, in order. -/
def alistKeys {α : Type} (m : List (String × α)) : List String :=
  m.map Prod.fst

/-- `track.id[:8]` — the first eight characters of a string. -/
def strTake (n : Nat) (s : String) : String :=
  ⟨s.data.take n⟩

/-- The correlation token `f"msg_{message_id}_{track_id[:8]}"` used both by
`send_track_to_bot` and by `_handle_button_response`. -/
def request_key (message_id : Nat) (track_id : String) : String :=
  "msg_" ++ toString message_id ++ "_" ++ strTake 8 track_id

/-- The insertion done by the success path of `send_track_to_bot`
(`telegram_client.py` lines 436-443): store a fresh `PendingRequest`
under `request_key`. -/
def register_request (track : Track) (message_id : Nat) (now : Int)
    (m : PendingMap) : PendingMap :=
  alistInsert (request_key message_id track.id)
    { track := track
      track_name := track.artist_string ++ " - " ++ track.name
      sent_at := now
      message_id := message_id } m

/-- `_cleanup_expired_requests`: delete every request with
`sent_at <= now - response_timeout`; keep the rest in order. -/
def cleanupExpiredRequests (timeout now : Int) (m : PendingMap) : PendingMap :=
  m.filter (fun kv => now - timeout < kv.2.sent_at)

/-- The running "oldest valid request" accumulator of the loop in
`_find_matching_request`: scan left to right, replacing the candidate only
when a strictly smaller `sent_at` is seen (ties keep the earlier entry). -/
def oldestValidAux (acc : Option (String × PendingRequest)) :
    PendingMap → Option (String × PendingRequest)
  | [] => acc
  | kv :: rest =>
      oldestValidAux
        (match acc with
         | none => some kv
         | some best =>
             if kv.2.sent_at < best.2.sent_at then some kv else some best) rest

/-- `_find_matching_request` (`telegram_client.py` lines 272-293): purge the
expired requests, select the oldest surviving one (FIFO) and delete it.
The Python loop interleaves the purge with the minimum computation; the
net effect on the dict is exactly "filter, then erase the selected key",
which is what is written here.  The consumed key is returned alongside the
request so that consumption can be stated. -/
def find_matching_request_keyed (timeout now : Int) (m : PendingMap) :
    Option (String × PendingRequest) × PendingMap :=
  let live := cleanupExpiredRequests timeout now m
  match oldestValidAux none live with
  | some kr => (some kr, alistErase kr.1 live)
  | none => (none, live)

/-- Audio metadata extracted from a document
(`_extract_filename_and_metadata`).  A missing entry and an empty string
are both falsy in Python, so both are modelled by `""`. -/
structure BotMetadata where
  title : String := ""
  performer : String := ""
deriving DecidableEq, Repr

/-- `clean_text` from `_calculate_track_similarity`:
`text.lower().replace('feat.', 'featuring').replace('&', 'and').strip()`. -/
def clean_text (text : String) : String :=
  (((text.toLower).replace "feat." "featuring").replace "&" "and").trim

/-- The `scores` list built by `_calculate_track_similarity`
(`telegram_client.py` lines 297-327): one `(sub-score, weight)` pair per
signal present.  A truthy filename contributes two signals (weights 0.6 and
0.3), truthy performer metadata one (0.4), truthy title metadata one
(0.5). -/
def similarity_signals (sim : String → String → ℚ)
    (bot_filename : String) (bot_metadata : BotMetadata)
    (spotify_artist spotify_title : String) : List (ℚ × ℚ) :=
  let spotify_artist_clean := clean_text spotify_artist
  let spotify_title_clean := clean_text spotify_title
  let spotify_full := spotify_artist_clean ++ " - " ++ spotify_title_clean
  (if bot_filename ≠ "" then
    let bot_filename_clean :=
      clean_text ((bot_filename.replace ".flac" "").replace ".mp3" "")
    [(sim bot_filename_clean spotify_full, 6/10),
     (sim bot_filename_clean spotify_title_clean, 3/10)]
   else []) ++
  (if bot_metadata.performer ≠ "" then
    [(sim (clean_text bot_metadata.performer) spotify_artist_clean, 4/10)]
   else []) ++
  (if bot_metadata.title ≠ "" then
    [(sim (clean_text bot_metadata.title) spotify_title_clean, 5/10)]
   else [])

/-- `_calculate_track_similarity` (`telegram_client.py` lines 295-336),
parametrised by the external similarity primitive `sim` (standing for
`fuzz.token_sort_ratio`).  The result is the weighted average over the
signals actually present, and `0` when none is. -/
def calculate_track_similarity (sim : String → String → ℚ)
    (bot_filename : String) (bot_metadata : BotMetadata)
    (spotify_artist spotify_title : String) : ℚ :=
  let scores := similarity_signals sim bot_filename bot_metadata
    spotify_artist spotify_title
  if scores = [] then 0
  else
    let total_weighted := (scores.map (fun sw => sw.1 * sw.2)).sum
    let total_weight := (scores.map (fun sw => sw.2)).sum
    if 0 < total_weight then total_weighted / total_weight else 0

/-- The similarity combination as the specification words it: the weighted
average, over exactly the signals present, of the similarities
filename-vs-"artist - title" (weight 0.6), filename-vs-title (0.3),
performer-vs-artist (0.4) and title-vs-title (0.5), on the normalized
texts (for the filename, `.flac`/`.mp3` extensions removed first; all text
lowercased with `feat.` → `featuring`, `&` → `and`, and surrounding
whitespace stripped). -/
def similarity_spec (sim : String → String → ℚ) (fn : String)
    (md : BotMetadata) (artist title : String) : ℚ :=
  let a := clean_text artist
  let t := clean_text title
  let full := a ++ " - " ++ t
  let f := clean_text ((fn.replace ".flac" "").replace ".mp3" "")
  let w := (if fn ≠ "" then (6 : ℚ)/10 + 3/10 else 0) +
           (if md.performer ≠ "" then (4 : ℚ)/10 else 0) +
           (if md.title ≠ "" then (5 : ℚ)/10 else 0)
  let num := (if fn ≠ "" then (6 : ℚ)/10 * sim f full + 3/10 * sim f t else 0) +
             (if md.performer ≠ "" then (4 : ℚ)/10 * sim (clean_text md.performer) a
              else 0) +
             (if md.title ≠ "" then (5 : ℚ)/10 * sim (clean_text md.title) t else 0)
  if w = 0 then 0 else num / w

/-- The score `_find_best_matching_request` assigns to one pending entry:
`_calculate_track_similarity(bot_filename, bot_metadata,
request.track.artist_string, request.track.name)`. -/
def fileEventScore (sim : String → String → ℚ) (fn : String)
    (md : BotMetadata) (kv : String × PendingRequest) : ℚ :=
  calculate_track_similarity sim fn md kv.2.track.artist_string kv.2.track.name

/-- The `best_score` / `best_match` accumulator of the loop in
`_find_best_matching_request`: starts at `(None, 0.0)` and is replaced only
on a strictly larger score. -/
def bestScoreAux (score : String × PendingRequest → ℚ)
    (acc : Option (String × PendingRequest) × ℚ) :
    PendingMap → Option (String × PendingRequest) × ℚ
  | [] => acc
  | kv :: rest =>
      bestScoreAux score
        (if acc.2 < score kv then (some kv, score kv) else acc) rest

/-- `_find_best_matching_request` (`telegram_client.py` lines 338-389):
purge expired requests; if nothing is pending report no match; otherwise
score every pending request, accept the best if its score reaches the
confidence threshold `70`, and fall back to the FIFO match otherwise. -/
def find_best_matching_request (sim : String → String → ℚ)
    (timeout now : Int) (bot_filename : String) (bot_metadata : BotMetadata)
    (m : PendingMap) : Option (String × PendingRequest) × PendingMap :=
  let live := cleanupExpiredRequests timeout now m
  if live = [] then (none, live)
  else
    match bestScoreAux (fileEventScore sim bot_filename bot_metadata)
        (none, 0) live with
    | (some kr, best_score) =>
        if 70 ≤ best_score then (some kr, alistErase kr.1 live)
        else find_matching_request_keyed timeout now live
    | (none, _) => find_matching_request_keyed timeout now live

/-- `_handle_button_response` (`telegram_client.py` lines 186-227), success
path, restricted to its effect on the pending map: FIFO-match a request;
on a match, store a new `PendingRequest` for the same track under the key
`f"msg_{event.message.id}_{matched_request.track.id[:8]}"` with
`sent_at = datetime.now()` (the refreshed timestamp for the file-download
phase). -/
def handle_button_response (timeout now : Int) (event_message_id : Nat)
    (m : PendingMap) : Option (String × PendingRequest) × PendingMap :=
  match find_matching_request_keyed timeout now m with
  | (none, m₁) => (none, m₁)
  | (some (k, matched), m₁) =>
      (some (k, matched),
       alistInsert (request_key event_message_id matched.track.id)
         { track := matched.track
           track_name := matched.track_name
           sent_at := now
           message_id := event_message_id } m₁)

/-- `_cleanup_orphaned_requests` (`telegram_client.py` lines 569-585): when
more than 50 requests are pending, keep only the 30 most recent
(`sorted(..., key=sent_at, reverse=True)[:30]`; Python's sort is stable,
which the Bool relation below reproduces). -/
def cleanup_orphaned_requests (m : PendingMap) : PendingMap :=
  if 50 < m.length then
    (m.mergeSort (fun a b => decide (b.2.sent_at ≤ a.2.sent_at))).take 30
  else m

/-! ## The Correlation Engine as a transition system (for claim C1)

An `EngineOp` is one call on the engine: a registration (the insertion of
`send_track_to_bot`) or one of the four match calls.  `step` runs one call
on the pending map and reports the consumed `(key, request)` entry, if
any. -/

/-- One call on the Correlation Engine. -/
inductive EngineOp where
  | register (track : Track) (message_id : Nat) (now : Int)
  | matchFile (sim : String → String → ℚ) (fn : String) (md : BotMetadata)
      (now : Int)
  | matchButton (event_message_id : Nat) (now : Int)
  | matchFifo (now : Int)
  | matchNotFound (now : Int)

/-- Execute one engine call.  `matchFifo` and `matchNotFound` both run
`_find_matching_request` (the latter via `_handle_nothing_found_response`,
which performs no further map mutation). -/
def step (timeout : Int) (op : EngineOp) (m : PendingMap) :
    Option (String × PendingRequest) × PendingMap :=
  match op with
  | .register track message_id now => (none, register_request track message_id now m)
  | .matchFile sim fn md now => find_best_matching_request sim timeout now fn md m
  | .matchButton event_message_id now =>
      handle_button_response timeout now event_message_id m
  | .matchFifo now => find_matching_request_keyed timeout now m
  | .matchNotFound now => find_matching_request_keyed timeout now m

/-- The correlation tokens a call inserts into the map: the token of a
`register`, and the re-registration token of a successful button match. -/
def insertedKeysOf (timeout : Int) (op : EngineOp) (m : PendingMap) :
    List String :=
  match op with
  | .register track message_id _ => [request_key message_id track.id]
  | .matchButton event_message_id now =>
      match (find_matching_request_keyed timeout now m).1 with
      | some (_, matched) => [request_key event_message_id matched.track.id]
      | none => []
  | _ => []

/-- A run is fresh when every token inserted along it is new: not currently
a key of the map and never consumed before.  This models the spec's
"returns a unique correlation token". -/
def freshRun (timeout : Int) : PendingMap → List String → List EngineOp → Bool
  | _, _, [] => true
  | m, consumed, op :: ops =>
      (insertedKeysOf timeout op m).all
        (fun k => decide (k ∉ alistKeys m ∧ k ∉ consumed)) &&
      freshRun timeout (step timeout op m).2
        (consumed ++ ((step timeout op m).1.map Prod.fst).toList) ops

/-- Run a sequence of engine calls, collecting each call's result. -/
def runEngine (timeout : Int) :
    PendingMap → List EngineOp →
    List (Option (String × PendingRequest)) × PendingMap
  | m, [] => ([], m)
  | m, op :: ops =>
      let s := step timeout op m
      let rest := runEngine timeout s.2 ops
      (s.1 :: rest.1, rest.2)

/-- The keys of the entries consumed along a run. -/
def consumedKeys (results : List (Option (String × PendingRequest))) :
    List String :=
  results.filterMap (fun o => o.map Prod.fst)

/-! ## Session State Machine (`src/progress_tracker.py`) -/

/-- The `TrackStatus` enum. -/
inductive TrackStatus where
  | pending
  | sent_to_bot
  | downloading
  | completed
  | failed
  | skipped
deriving DecidableEq, Repr

/-- The `.value` string of each `TrackStatus` member. -/
def TrackStatus.value : TrackStatus → String
  | .pending => "pending"
  | .sent_to_bot => "sent_to_bot"
  | .downloading => "downloading"
  | .completed => "completed"
  | .failed => "failed"
  | .skipped => "skipped"

/-- `TrackStatus(s)` — the enum constructor on its string encoding;
`none` models the `ValueError` on an unknown value. -/
def trackStatusOfString : String → Option TrackStatus
  | "pending" => some .pending
  | "sent_to_bot" => some .sent_to_bot
  | "downloading" => some .downloading
  | "completed" => some .completed
  | "failed" => some .failed
  | "skipped" => some .skipped
  | _ => none

/-- The `TrackProgress` dataclass.  `datetime.isoformat()` strings are kept
as strings; the float `download_time` is a rational. -/
structure TrackProgress where
  track_id : String
  track_name : String
  track_url : String
  status : TrackStatus
  attempts : Nat := 0
  last_attempt : Option String := none
  error_message : Option String := none
  file_path : Option String := none
  file_size : Nat := 0
  download_time : ℚ := 0
  sent_to_bot_at : Option String := none
  completed_at : Option String := none
deriving DecidableEq, Repr

/-- The `SessionProgress` dataclass; `tracks` is the insertion-ordered
track-id → `TrackProgress` dict. -/
structure SessionProgress where
  session_id : String
  playlist_url : String
  playlist_name : String
  total_tracks : Nat
  started_at : String
  last_updated : String
  completed_at : Option String := none
  tracks : List (String × TrackProgress) := []
deriving DecidableEq, Repr

/-- The persisted form of one track record: the `status` field holds the
enum's string value, everything else is stored as is
(`save_progress`, `progress_tracker.py` lines 148-153). -/
structure TrackProgressJson where
  track_id : String
  track_name : String
  track_url : String
  status : String
  attempts : Nat
  last_attempt : Option String
  error_message : Option String
  file_path : Option String
  file_size : Nat
  download_time : ℚ
  sent_to_bot_at : Option String
  completed_at : Option String
deriving DecidableEq, Repr

/-- Serialise one `TrackProgress` (`track_dict['status'] = status.value`). -/
def track_to_json (t : TrackProgress) : TrackProgressJson :=
  { track_id := t.track_id
    track_name := t.track_name
    track_url := t.track_url
    status := t.status.value
    attempts := t.attempts
    last_attempt := t.last_attempt
    error_message := t.error_message
    file_path := t.file_path
    file_size := t.file_size
    download_time := t.download_time
    sent_to_bot_at := t.sent_to_bot_at
    completed_at := t.completed_at }

/-- Deserialise one track record
(`track_data['status'] = TrackStatus(track_data['status'])` followed by
`TrackProgress(**track_data)`); an unknown status raises, modelled as
`none`. -/
def track_from_json (j : TrackProgressJson) : Option TrackProgress :=
  match trackStatusOfString j.status with
  | none => none
  | some st =>
      some
        { track_id := j.track_id
          track_name := j.track_name
          track_url := j.track_url
          status := st
          attempts := j.attempts
          last_attempt := j.last_attempt
          error_message := j.error_message
          file_path := j.file_path
          file_size := j.file_size
          download_time := j.download_time
          sent_to_bot_at := j.sent_to_bot_at
          completed_at := j.completed_at }

/-- The persisted session document (`progress.json`). -/
structure SessionJson where
  session_id : String
  playlist_url : String
  playlist_name : String
  total_tracks : Nat
  started_at : String
  last_updated : String
  completed_at : Option String
  tracks : List (String × TrackProgressJson)
deriving DecidableEq, Repr

/-- `save_progress` (`progress_tracker.py` lines 138-166): stamp
`last_updated`, serialise every track with its status string, and write
the document (the atomic temp-file write is the I/O carrier of this
value). -/
def save_progress (sess : SessionProgress) (now : String) : SessionJson :=
  { session_id := sess.session_id
    playlist_url := sess.playlist_url
    playlist_name := sess.playlist_name
    total_tracks := sess.total_tracks
    started_at := sess.started_at
    last_updated := now
    completed_at := sess.completed_at
    tracks := sess.tracks.map (fun kv => (kv.1, track_to_json kv.2)) }

/-- The track-reconstruction loop of `load_session`: every record must
parse, otherwise the whole load fails. -/
def load_tracks : List (String × TrackProgressJson) →
    Option (List (String × TrackProgress))
  | [] => some []
  | (k, tj) :: rest =>
      match track_from_json tj, load_tracks rest with
      | some t, some ts => some ((k, t) :: ts)
      | _, _ => none

/-- `load_session` (`progress_tracker.py` lines 106-136): rebuild the
`TrackProgress` map from the persisted document; a parse failure of any
record yields `None`. -/
def load_session (j : SessionJson) : Option SessionProgress :=
  match load_tracks j.tracks with
  | none => none
  | some ts =>
      some
        { session_id := j.session_id
          playlist_url := j.playlist_url
          playlist_name := j.playlist_name
          total_tracks := j.total_tracks
          started_at := j.started_at
          last_updated := j.last_updated
          completed_at := j.completed_at
          tracks := ts }

/-- The in-memory state of a `ProgressTracker`: its current session (the
stats cache plays no role in the claims below). -/
structure ProgressTracker where
  current_session : Option SessionProgress := none
deriving DecidableEq, Repr

/-- `update_track_status` (`progress_tracker.py` lines 168-196).  The
returned Bool records whether `save_progress` ran (i.e. whether the
persisted file was written); `save_progress` also stamps
`last_updated := now` on the session.  With no active session or an
unknown track id the call returns immediately. -/
def update_track_status (st : ProgressTracker) (track_id : String)
    (status : TrackStatus) (error_message : Option String)
    (file_path : Option String) (file_size : Nat) (now : String) :
    ProgressTracker × Bool :=
  match st.current_session with
  | none => (st, false)
  | some sess =>
      match alistLookup track_id sess.tracks with
      | none => (st, false)
      | some track =>
          let track := { track with status := status, last_attempt := some now }
          let track :=
            if status = TrackStatus.failed then
              { track with attempts := track.attempts + 1,
                           error_message := error_message }
            else if status = TrackStatus.completed then
              { track with completed_at := some now, file_path := file_path,
                           file_size := file_size, error_message := none }
            else if status = TrackStatus.sent_to_bot then
              { track with sent_to_bot_at := some now }
            else track
          let sess :=
            { sess with
              tracks := sess.tracks.map
                (fun kv => if kv.1 = track_id then (kv.1, track) else kv)
              last_updated := now }
          ({ st with current_session := some sess }, true)

/-- `mark_track_sent`. -/
def mark_track_sent (st : ProgressTracker) (track_id : String) (now : String) :
    ProgressTracker × Bool :=
  update_track_status st track_id TrackStatus.sent_to_bot none none 0 now

/-- `mark_track_downloading`. -/
def mark_track_downloading (st : ProgressTracker) (track_id : String)
    (now : String) : ProgressTracker × Bool :=
  update_track_status st track_id TrackStatus.downloading none none 0 now

/-- `mark_track_completed`. -/
def mark_track_completed (st : ProgressTracker) (track_id : String)
    (file_path : String) (file_size : Nat) (now : String) :
    ProgressTracker × Bool :=
  update_track_status st track_id TrackStatus.completed none (some file_path)
    file_size now

/-- `mark_track_failed`. -/
def mark_track_failed (st : ProgressTracker) (track_id : String)
    (error_message : String) (now : String) : ProgressTracker × Bool :=
  update_track_status st track_id TrackStatus.failed (some error_message)
    none 0 now

/-- `mark_track_skipped`. -/
def mark_track_skipped (st : ProgressTracker) (track_id : String)
    (reason : String) (now : String) : ProgressTracker × Bool :=
  update_track_status st track_id TrackStatus.skipped (some reason) none 0 now

/-- `complete_session`: stamp `completed_at` and save. -/
def complete_session (st : ProgressTracker) (now : String) : ProgressTracker :=
  match st.current_session with
  | none => st
  | some sess =>
      let sess := { sess with completed_at := some now, last_updated := now }
      { st with current_session := some sess }

/-- The track record (if any) the tracker currently holds for an id. -/
def trackIn (st : ProgressTracker) (track_id : String) : Option TrackProgress :=
  match st.current_session with
  | none => none
  | some sess => alistLookup track_id sess.tracks

/-! ## Batch Orchestrator pieces (`src/main.py`) -/

/-- `_is_track_completed` (`main.py` lines 498-507), for runs in which a
session has been started. -/
def is_track_completed (st : ProgressTracker) (track_id : String) : Bool :=
  match trackIn st track_id with
  | some t => t.status = TrackStatus.completed
  | none => false

/-- The final forcing block of `_wait_for_batch_completion`
(`main.py` lines 561-580): compute the batch tracks that are still
non-terminal (`status not in [COMPLETED, FAILED]`) and mark each of them
`FAILED` with reason `"Batch timeout"`. -/
def wait_for_batch_completion_force (st : ProgressTracker)
    (batch_track_ids : List String) (now : String) : ProgressTracker :=
  match st.current_session with
  | none => st
  | some sess =>
      let final_incomplete := batch_track_ids.filter (fun track_id =>
        match alistLookup track_id sess.tracks with
        | some t =>
            !(t.status = TrackStatus.completed ∨ t.status = TrackStatus.failed :
              Bool)
        | none => false)
      final_incomplete.foldl
        (fun acc track_id => (mark_track_failed acc track_id "Batch timeout" now).1)
        st

/-- The per-batch send loop of `_process_tracks` in batched/parallel mode
(`main.py` lines 420-442), under the schedule in which every send
succeeds: already-completed tracks are skipped, every other track is
marked `SENT_TO_BOT`. -/
def send_batch (st : ProgressTracker) (batch : List Track) (now : String) :
    ProgressTracker :=
  batch.foldl
    (fun acc track =>
      if is_track_completed acc track.id then acc
      else (mark_track_sent acc track.id now).1)
    st

/-- The batch loop of `_process_tracks` in batched/parallel mode
(`main.py` lines 377-447), under the adversarial schedule in which the bot
never responds and every batch wait runs to its timeout: each batch is
dispatched, and `_wait_for_batch_completion` — whose timeout path
force-fails the batch — is invoked only when `batch_end < total_tracks`,
i.e. only when a further batch remains.  The first argument is recursion
fuel; `tracks.length` is always sufficient for a positive batch size. -/
def process_batches_no_responses :
    Nat → Nat → String → ProgressTracker → List Track → ProgressTracker
  | 0, _, _, st, _ => st
  | _ + 1, _, _, st, [] => st
  | fuel + 1, batch_size, now, st, t :: ts =>
      let batch := (t :: ts).take batch_size
      let rest := (t :: ts).drop batch_size
      let st := send_batch st batch now
      let st :=
        if rest = [] then st
        else wait_for_batch_completion_force st (batch.map Track.id) now
      process_batches_no_responses fuel batch_size now st rest

/-- `_process_tracks` in batched/parallel mode under the no-responses,
all-timeouts schedule: run the batch loop, then the final drain loop
(`main.py` lines 449-491, which under this schedule only waits — it marks
nothing failed) and `complete_session`. -/
def process_tracks_no_responses (st : ProgressTracker) (tracks : List Track)
    (batch_size : Nat) (now : String) : ProgressTracker :=
  complete_session
    (process_batches_no_responses tracks.length batch_size now st tracks) now

/-- The limit step of `_start_new_session` (`main.py` lines 240-243):
`if limit and limit > 0: tracks = tracks[:limit]` — only a truthy,
positive limit truncates. -/
def apply_limit (limit : Option Int) (ts : List Track) : List Track :=
  match limit with
  | some l => if 0 < l then ts.take l.toNat else ts
  | none => ts

/-- The slicing step of `_start_new_session` (`main.py` lines 229-243):
clamp `start_from - 1` at zero (`max(0, start_from - 1)`), fail when the
clamped index is not below the list length, otherwise drop that many
tracks and apply the limit. -/
def start_new_session_slice (tracks : List Track) (start_from : Int)
    (limit : Option Int) : Except String (List Track) :=
  let start_index : Int := max 0 (start_from - 1)
  if (tracks.length : Int) ≤ start_index then
    Except.error ("Start position " ++ toString start_from ++
      " is beyond playlist length (" ++ toString tracks.length ++ " tracks)")
  else
    Except.ok (apply_limit limit (tracks.drop start_index.toNat))

/-! ## Concrete data used by witnesses and counterexamples -/

/-- A concrete track. -/
def exTrackA : Track :=
  { id := "trackAAAA0001", name := "Alpha", artists := ["ArtistA"],
    album := "AlbumA", url := "https://open.spotify.com/track/a",
    duration_ms := 180000 }

/-- A second concrete track. -/
def exTrackB : Track :=
  { id := "trackBBBB0002", name := "Beta", artists := ["ArtistB"],
    album := "AlbumB", url := "https://open.spotify.com/track/b",
    duration_ms := 200000 }

/-- A pending request for `exTrackA`, sent at time 0. -/
def exReqA : PendingRequest :=
  { track := exTrackA, track_name := "ArtistA - Alpha", sent_at := 0,
    message_id := 1 }

/-- A pending request for `exTrackB`, sent at time 5. -/
def exReqB : PendingRequest :=
  { track := exTrackB, track_name := "ArtistB - Beta", sent_at := 5,
    message_id := 2 }

/-- A two-entry pending map. -/
def exMap2 : PendingMap :=
  [("msg_1_trackAAA", exReqA), ("msg_2_trackBBB", exReqB)]

/-- A one-entry pending map. -/
def exMap1 : PendingMap := [("msg_1_trackAAA", exReqA)]

/-- A degenerate similarity primitive that scores everything 0. -/
def simZero : String → String → ℚ := fun _ _ => 0

/-- A degenerate similarity primitive that scores everything 100. -/
def simHundred : String → String → ℚ := fun _ _ => 100

/-- A concrete run of engine calls: two registrations followed by one call
of each match kind. -/
def exOps : List EngineOp :=
  [EngineOp.register exTrackA 1 0,
   EngineOp.register exTrackB 2 0,
   EngineOp.matchButton 99 0,
   EngineOp.matchFile simZero "" {} 0,
   EngineOp.matchNotFound 0,
   EngineOp.matchFifo 0]

/-- A family of pending requests with increasing timestamps. -/
def exReqN (i : Nat) : PendingRequest :=
  { track := exTrackA, track_name := "ArtistA - Alpha", sent_at := (i : Int),
    message_id := i }

/-- A 51-entry pending map (above the safety-valve cap). -/
def exMap51 : PendingMap := (List.range 51).map (fun i => (toString i, exReqN i))

/-- A concrete `PENDING` progress record for `exTrackA`. -/
def exProgress1 : TrackProgress :=
  { track_id := "trackAAAA0001", track_name := "ArtistA - Alpha",
    track_url := "https://open.spotify.com/track/a",
    status := TrackStatus.pending }

/-- A one-track session holding `exProgress1`. -/
def exSession1 : SessionProgress :=
  { session_id := "session_1", playlist_url := "pl",
    playlist_name := "Playlist", total_tracks := 1, started_at := "T0",
    last_updated := "T0", completed_at := none,
    tracks := [("trackAAAA0001", exProgress1)] }

/-- A tracker holding `exSession1`. -/
def exTracker1 : ProgressTracker := { current_session := some exSession1 }

/-- A tracker with no active session. -/
def exTrackerEmpty : ProgressTracker := { current_session := none }

/-! ## Basic dictionary lemmas -/

theorem mem_keys_of_mem_erase {α : Type} {a k : String} {m : List (String × α)}
    (h : a ∈ alistKeys (alistErase k m)) : a ∈ alistKeys m := by
  simp only [alistKeys, alistErase, List.mem_map] at h ⊢
  obtain ⟨kv, hkv, rfl⟩ := h
  exact ⟨kv, (List.mem_filter.mp hkv).1, rfl⟩

theorem not_mem_keys_erase_self {α : Type} (k : String) (m : List (String × α)) :
    k ∉ alistKeys (alistErase k m) := by
  simp only [alistKeys, alistErase, List.mem_map]
  rintro ⟨kv, hkv, rfl⟩
  have := (List.mem_filter.mp hkv).2
  simp [bne_iff_ne] at this

theorem mem_erase_of_mem {α : Type} {kv : String × α} {k : String}
    {m : List (String × α)} (h : kv ∈ alistErase k m) : kv ∈ m :=
  (List.mem_filter.mp h).1

theorem mem_keys_of_mem_insert {α : Type} {a k : String} {v : α}
    {m : List (String × α)} (h : a ∈ alistKeys (alistInsert k v m)) :
    a ∈ alistKeys m ∨ a = k := by
  simp only [alistKeys, alistInsert] at h
  by_cases hc : m.any (fun kv => kv.1 == k)
  · rw [if_pos hc] at h
    simp only [List.map_map, List.mem_map, Function.comp] at h
    obtain ⟨kv, hkv, hval⟩ := h
    by_cases hk : kv.1 = k
    · simp [hk] at hval
      right; exact hval.symm
    · simp [hk] at hval
      left; exact hval ▸ List.mem_map.mpr ⟨kv, hkv, rfl⟩
  · rw [if_neg hc] at h
    simp only [List.map_append, List.mem_append, List.map_cons, List.map_nil,
      List.mem_singleton] at h
    cases h with
    | inl h => left; exact h
    | inr h => right; exact h

theorem alistLookup_map_overwrite {α : Type} (k : String) (v : α) :
    ∀ (m : List (String × α)), (∃ kv ∈ m, kv.1 = k) →
      alistLookup k (m.map (fun kv => if kv.1 = k then (k, v) else kv)) =
        some v := by
  intro m
  induction m with
  | nil => rintro ⟨kv, h, -⟩; cases h
  | cons hd tl ih =>
      rintro ⟨kv, hmem, hk⟩
      by_cases hhd : hd.1 = k
      · simp [alistLookup, hhd]
      · simp only [List.map_cons, if_neg hhd]
        simp only [alistLookup]
        rw [if_neg hhd]
        rcases List.mem_cons.mp hmem with rfl | h'
        · exact absurd hk hhd
        · exact ih ⟨kv, h', hk⟩

theorem alistLookup_append_single {α : Type} (k : String) (v : α) :
    ∀ (m : List (String × α)), (∀ kv ∈ m, kv.1 ≠ k) →
      alistLookup k (m ++ [(k, v)]) = some v := by
  intro m
  induction m with
  | nil => intro _; simp [alistLookup]
  | cons hd tl ih =>
      intro h
      have hhd := h hd (List.mem_cons_self hd tl)
      simp only [List.cons_append, alistLookup]
      rw [if_neg hhd]
      exact ih (fun kv hkv => h kv (List.mem_cons_of_mem hd hkv))

theorem alistLookup_insert_self {α : Type} (k : String) (v : α)
    (m : List (String × α)) : alistLookup k (alistInsert k v m) = some v := by
  simp only [alistInsert]
  by_cases hc : m.any (fun kv => kv.1 == k)
  · rw [if_pos hc]
    simp only [List.any_eq_true, beq_iff_eq] at hc
    exact alistLookup_map_overwrite k v m hc
  · rw [if_neg hc]
    simp only [List.any_eq_true, beq_iff_eq, not_exists, not_and] at hc
    exact alistLookup_append_single k v m hc

theorem mem_cleanup_iff {timeout now : Int} {kv : String × PendingRequest}
    {m : PendingMap} :
    kv ∈ cleanupExpiredRequests timeout now m ↔
      kv ∈ m ∧ now - timeout < kv.2.sent_at := by
  simp [cleanupExpiredRequests, List.mem_filter]

theorem mem_keys_of_mem_keys_cleanup {timeout now : Int} {a : String}
    {m : PendingMap} (h : a ∈ alistKeys (cleanupExpiredRequests timeout now m)) :
    a ∈ alistKeys m := by
  simp only [alistKeys, List.mem_map] at h ⊢
  obtain ⟨kv, hkv, rfl⟩ := h
  exact ⟨kv, (mem_cleanup_iff.mp hkv).1, rfl⟩

theorem cleanup_idem (timeout now : Int) (m : PendingMap) :
    cleanupExpiredRequests timeout now (cleanupExpiredRequests timeout now m) =
      cleanupExpiredRequests timeout now m := by
  apply List.filter_eq_self.mpr
  intro kv hkv
  exact (List.mem_filter.mp hkv).2

/-! ## The FIFO selection loop -/

theorem oldestValidAux_some_of_acc (a : String × PendingRequest) :
    ∀ (l : PendingMap), (oldestValidAux (some a) l).isSome := by
  intro l
  induction l generalizing a with
  | nil => rfl
  | cons hd tl ih =>
      simp only [oldestValidAux]
      by_cases hlt : hd.2.sent_at < a.2.sent_at
      · rw [if_pos hlt]; exact ih hd
      · rw [if_neg hlt]; exact ih a

theorem oldestValidAux_none_iff {l : PendingMap} :
    oldestValidAux none l = none ↔ l = [] := by
  cases l with
  | nil => simp [oldestValidAux]
  | cons hd tl =>
      simp only [oldestValidAux]
      constructor
      · intro h
        have := oldestValidAux_some_of_acc hd tl
        rw [h] at this
        cases this
      · intro h; cases h

theorem oldestValidAux_mem {l : PendingMap} {kr : String × PendingRequest} :
    ∀ {acc : Option (String × PendingRequest)},
      oldestValidAux acc l = some kr → acc = some kr ∨ kr ∈ l := by
  induction l with
  | nil => intro acc h; left; exact h
  | cons hd tl ih =>
      intro acc h
      cases acc with
      | none =>
          simp only [oldestValidAux] at h
          rcases ih h with h' | h'
          · right; rw [← Option.some.inj h']; exact List.mem_cons_self hd tl
          · right; exact List.mem_cons_of_mem hd h'
      | some best =>
          simp only [oldestValidAux] at h
          by_cases hlt : hd.2.sent_at < best.2.sent_at
          · rw [if_pos hlt] at h
            rcases ih h with h' | h'
            · right; rw [← Option.some.inj h']; exact List.mem_cons_self hd tl
            · right; exact List.mem_cons_of_mem hd h'
          · rw [if_neg hlt] at h
            rcases ih h with h' | h'
            · left; exact h'
            · right; exact List.mem_cons_of_mem hd h'

theorem oldestValidAux_min {l : PendingMap} {kr : String × PendingRequest} :
    ∀ {acc : Option (String × PendingRequest)},
      oldestValidAux acc l = some kr →
      (∀ x ∈ l, kr.2.sent_at ≤ x.2.sent_at) ∧
      (∀ a, acc = some a → kr.2.sent_at ≤ a.2.sent_at) := by
  induction l with
  | nil =>
      intro acc h
      refine ⟨fun x hx => absurd hx (List.not_mem_nil x), fun a ha => ?_⟩
      rw [ha] at h
      rw [Option.some.inj h]
  | cons hd tl ih =>
      intro acc h
      cases acc with
      | none =>
          simp only [oldestValidAux] at h
          obtain ⟨hall, hacc⟩ := ih h
          refine ⟨fun x hx => ?_, fun a ha => by cases ha⟩
          rcases List.mem_cons.mp hx with rfl | hx'
          · exact hacc x rfl
          · exact hall x hx'
      | some best =>
          simp only [oldestValidAux] at h
          by_cases hlt : hd.2.sent_at < best.2.sent_at
          · rw [if_pos hlt] at h
            obtain ⟨hall, hacc⟩ := ih h
            have hhd : kr.2.sent_at ≤ hd.2.sent_at := hacc hd rfl
            refine ⟨fun x hx => ?_, fun a ha => ?_⟩
            · rcases List.mem_cons.mp hx with rfl | hx'
              · exact hhd
              · exact hall x hx'
            · cases Option.some.inj ha
              exact le_of_lt (lt_of_le_of_lt hhd hlt)
          · rw [if_neg hlt] at h
            obtain ⟨hall, hacc⟩ := ih h
            have hbest : kr.2.sent_at ≤ best.2.sent_at := hacc best rfl
            refine ⟨fun x hx => ?_, fun a ha => ?_⟩
            · rcases List.mem_cons.mp hx with rfl | hx'
              · exact le_trans hbest (not_lt.mp hlt)
              · exact hall x hx'
            · cases Option.some.inj ha
              exact hbest

/-! ## `_find_matching_request` characterisation -/

theorem fmrk_some {timeout now : Int} {m m₂ : PendingMap} {k : String}
    {r : PendingRequest}
    (h : find_matching_request_keyed timeout now m = (some (k, r), m₂)) :
    (k, r) ∈ cleanupExpiredRequests timeout now m ∧
    (∀ x ∈ cleanupExpiredRequests timeout now m, r.sent_at ≤ x.2.sent_at) ∧
    m₂ = alistErase k (cleanupExpiredRequests timeout now m) := by
  simp only [find_matching_request_keyed] at h
  split at h
  next kr hov =>
      rw [Prod.mk.injEq] at h
      obtain ⟨h₁, h₂⟩ := h
      obtain rfl : kr = (k, r) := Option.some.inj h₁
      refine ⟨?_, (oldestValidAux_min hov).1, h₂.symm⟩
      rcases oldestValidAux_mem hov with h' | h'
      · cases h'
      · exact h'
  next hov =>
      rw [Prod.mk.injEq] at h
      cases h.1

theorem fmrk_none {timeout now : Int} {m m₂ : PendingMap}
    (h : find_matching_request_keyed timeout now m = (none, m₂)) :
    cleanupExpiredRequests timeout now m = [] ∧ m₂ = [] := by
  simp only [find_matching_request_keyed] at h
  split at h
  next kr hov =>
      rw [Prod.mk.injEq] at h
      cases h.1
  next hov =>
      rw [Prod.mk.injEq] at h
      have hl := oldestValidAux_none_iff.mp hov
      exact ⟨hl, h.2.symm.trans hl⟩

theorem fmrk_isSome {timeout now : Int} {m : PendingMap}
    (h : cleanupExpiredRequests timeout now m ≠ []) :
    (find_matching_request_keyed timeout now m).1.isSome := by
  simp only [find_matching_request_keyed]
  split
  next kr hov => rfl
  next hov => exact absurd (oldestValidAux_none_iff.mp hov) h

theorem fmrk_cleanup_eq (timeout now : Int) (m : PendingMap) :
    find_matching_request_keyed timeout now
        (cleanupExpiredRequests timeout now m) =
      find_matching_request_keyed timeout now m := by
  unfold find_matching_request_keyed
  rw [cleanup_idem]

theorem fmrk_keys_subset {timeout now : Int} {m : PendingMap} {a : String}
    (h : a ∈ alistKeys (find_matching_request_keyed timeout now m).2) :
    a ∈ alistKeys m := by
  rcases hres : find_matching_request_keyed timeout now m with ⟨o, m₂⟩
  rw [hres] at h
  cases o with
  | none =>
      obtain ⟨-, rfl⟩ := fmrk_none hres
      simp [alistKeys] at h
  | some kr =>
      obtain ⟨k, r⟩ := kr
      obtain ⟨-, -, rfl⟩ := fmrk_some hres
      exact mem_keys_of_mem_keys_cleanup (mem_keys_of_mem_erase h)

theorem fmrk_consumed_not_mem {timeout now : Int} {m m₂ : PendingMap}
    {k : String} {r : PendingRequest}
    (h : find_matching_request_keyed timeout now m = (some (k, r), m₂)) :
    k ∉ alistKeys m₂ := by
  obtain ⟨-, -, hm₂⟩ := fmrk_some h
  rw [hm₂]
  exact not_mem_keys_erase_self _ _

/-! ## The best-score loop of `_find_best_matching_request` -/

theorem bestScoreAux_fst_mem {score : String × PendingRequest → ℚ}
    {l : PendingMap} {kr : String × PendingRequest} :
    ∀ {acc : Option (String × PendingRequest) × ℚ},
      (bestScoreAux score acc l).1 = some kr → acc.1 = some kr ∨ kr ∈ l := by
  induction l with
  | nil => intro acc h; left; exact h
  | cons hd tl ih =>
      intro acc h
      simp only [bestScoreAux] at h
      by_cases hlt : acc.2 < score hd
      · rw [if_pos hlt] at h
        rcases ih h with h' | h'
        · right
          rw [← Option.some.inj h']
          exact List.mem_cons_self hd tl
        · right; exact List.mem_cons_of_mem hd h'
      · rw [if_neg hlt] at h
        rcases ih h with h' | h'
        · left; exact h'
        · right; exact List.mem_cons_of_mem hd h'

theorem bestScoreAux_eq_of_none {score : String × PendingRequest → ℚ}
    {l : PendingMap} :
    ∀ {acc : Option (String × PendingRequest) × ℚ},
      (bestScoreAux score acc l).1 = none → bestScoreAux score acc l = acc := by
  induction l with
  | nil => intro acc _; rfl
  | cons hd tl ih =>
      intro acc h
      simp only [bestScoreAux] at h ⊢
      by_cases hlt : acc.2 < score hd
      · rw [if_pos hlt] at h ⊢
        have heq := ih h
        rw [heq] at h
        cases h
      · rw [if_neg hlt] at h ⊢
        exact ih h

theorem bestScoreAux_inv {score : String × PendingRequest → ℚ}
    {l : PendingMap} :
    ∀ {acc : Option (String × PendingRequest) × ℚ},
      (acc.1 = none ∨ (∃ a, acc.1 = some a ∧ acc.2 = score a)) →
      ((bestScoreAux score acc l).1 = none ∨
       (∃ a, (bestScoreAux score acc l).1 = some a ∧
             (bestScoreAux score acc l).2 = score a)) := by
  induction l with
  | nil => intro acc h; exact h
  | cons hd tl ih =>
      intro acc h
      simp only [bestScoreAux]
      by_cases hlt : acc.2 < score hd
      · rw [if_pos hlt]
        exact ih (Or.inr ⟨hd, rfl, rfl⟩)
      · rw [if_neg hlt]
        exact ih h

theorem bestScoreAux_acc_le {score : String × PendingRequest → ℚ}
    {l : PendingMap} :
    ∀ {acc : Option (String × PendingRequest) × ℚ},
      acc.2 ≤ (bestScoreAux score acc l).2 := by
  induction l with
  | nil => intro acc; exact le_refl _
  | cons hd tl ih =>
      intro acc
      simp only [bestScoreAux]
      by_cases hlt : acc.2 < score hd
      · rw [if_pos hlt]
        exact le_trans (le_of_lt hlt) ih
      · rw [if_neg hlt]
        exact ih

theorem bestScoreAux_max {score : String × PendingRequest → ℚ}
    {l : PendingMap} :
    ∀ {acc : Option (String × PendingRequest) × ℚ} {x : String × PendingRequest},
      x ∈ l → score x ≤ (bestScoreAux score acc l).2 := by
  induction l with
  | nil => intro acc x hx; cases hx
  | cons hd tl ih =>
      intro acc x hx
      simp only [bestScoreAux]
      rcases List.mem_cons.mp hx with rfl | hx'
      · by_cases hlt : acc.2 < score x
        · rw [if_pos hlt]
          exact bestScoreAux_acc_le
        · rw [if_neg hlt]
          exact le_trans (not_lt.mp hlt) bestScoreAux_acc_le
      · by_cases hlt : acc.2 < score hd
        · rw [if_pos hlt]; exact ih hx'
        · rw [if_neg hlt]; exact ih hx'

/-! ## `_find_best_matching_request` case analysis -/

theorem fbmr_cases (sim : String → String → ℚ) (timeout now : Int)
    (fn : String) (md : BotMetadata) (m : PendingMap) :
    (cleanupExpiredRequests timeout now m = [] ∧
       find_best_matching_request sim timeout now fn md m = (none, [])) ∨
    (∃ kr best_score,
       bestScoreAux (fileEventScore sim fn md) (none, 0)
           (cleanupExpiredRequests timeout now m) = (some kr, best_score) ∧
       70 ≤ best_score ∧
       find_best_matching_request sim timeout now fn md m =
         (some kr, alistErase kr.1 (cleanupExpiredRequests timeout now m))) ∨
    (¬ cleanupExpiredRequests timeout now m = [] ∧
       (∀ kr bs, bestScoreAux (fileEventScore sim fn md) (none, 0)
            (cleanupExpiredRequests timeout now m) = (some kr, bs) → bs < 70) ∧
       find_best_matching_request sim timeout now fn md m =
         find_matching_request_keyed timeout now m) := by
  by_cases hl : cleanupExpiredRequests timeout now m = []
  · left
    refine ⟨hl, ?_⟩
    simp only [find_best_matching_request]
    rw [if_pos hl, hl]
  · rcases haux : bestScoreAux (fileEventScore sim fn md) (none, 0)
        (cleanupExpiredRequests timeout now m) with ⟨o, s⟩
    cases o with
    | some kr =>
        by_cases h70 : (70 : ℚ) ≤ s
        · right; left
          refine ⟨kr, s, rfl, h70, ?_⟩
          simp only [find_best_matching_request]
          rw [if_neg hl, haux]
          dsimp only
          rw [if_pos h70]
        · right; right
          refine ⟨hl, ?_, ?_⟩
          · intro kr' bs h'
            rw [Prod.mk.injEq] at h'
            rw [← h'.2]
            exact not_le.mp h70
          · simp only [find_best_matching_request]
            rw [if_neg hl, haux]
            dsimp only
            rw [if_neg h70]
            exact fmrk_cleanup_eq timeout now m
    | none =>
        right; right
        refine ⟨hl, ?_, ?_⟩
        · intro kr' bs h'
          rw [Prod.mk.injEq] at h'
          cases h'.1
        · simp only [find_best_matching_request]
          rw [if_neg hl, haux]
          dsimp only
          exact fmrk_cleanup_eq timeout now m

theorem fbmr_keys_subset {sim : String → String → ℚ} {timeout now : Int}
    {fn : String} {md : BotMetadata} {m : PendingMap} {a : String}
    (h : a ∈ alistKeys (find_best_matching_request sim timeout now fn md m).2) :
    a ∈ alistKeys m := by
  rcases fbmr_cases sim timeout now fn md m with ⟨-, heq⟩ | ⟨kr, bs, -, -, heq⟩ |
      ⟨-, -, heq⟩
  · rw [heq] at h
    simp [alistKeys] at h
  · rw [heq] at h
    exact mem_keys_of_mem_keys_cleanup (mem_keys_of_mem_erase h)
  · rw [heq] at h
    exact fmrk_keys_subset h

theorem fbmr_consumed_not_mem {sim : String → String → ℚ} {timeout now : Int}
    {fn : String} {md : BotMetadata} {m m₂ : PendingMap} {k : String}
    {r : PendingRequest}
    (h : find_best_matching_request sim timeout now fn md m = (some (k, r), m₂)) :
    k ∈ alistKeys m ∧ k ∉ alistKeys m₂ := by
  rcases fbmr_cases sim timeout now fn md m with ⟨-, heq⟩ | ⟨kr, bs, haux, -, heq⟩ |
      ⟨-, -, heq⟩
  · rw [heq] at h
    rw [Prod.mk.injEq] at h
    cases h.1
  · rw [heq] at h
    rw [Prod.mk.injEq] at h
    obtain ⟨h₁, h₂⟩ := h
    obtain rfl : kr = (k, r) := Option.some.inj h₁
    constructor
    · have hmem : (k, r) ∈ cleanupExpiredRequests timeout now m := by
        rcases bestScoreAux_fst_mem (by rw [haux]) with h' | h'
        · cases h'
        · exact h'
      exact mem_keys_of_mem_keys_cleanup
        (List.mem_map.mpr ⟨(k, r), hmem, rfl⟩)
    · rw [← h₂]
      exact not_mem_keys_erase_self _ _
  · rw [heq] at h
    constructor
    · obtain ⟨hmem, -, -⟩ := fmrk_some h
      exact mem_keys_of_mem_keys_cleanup (List.mem_map.mpr ⟨(k, r), hmem, rfl⟩)
    · exact fmrk_consumed_not_mem h

/-! ## `_handle_button_response` on the pending map -/

theorem hbr_some {timeout now : Int} {eid : Nat} {m m₁ : PendingMap}
    {k : String} {matched : PendingRequest}
    (h : find_matching_request_keyed timeout now m = (some (k, matched), m₁)) :
    handle_button_response timeout now eid m =
      (some (k, matched),
       alistInsert (request_key eid matched.track.id)
         { track := matched.track
           track_name := matched.track_name
           sent_at := now
           message_id := eid } m₁) := by
  unfold handle_button_response
  rw [h]

theorem hbr_none {timeout now : Int} {eid : Nat} {m m₁ : PendingMap}
    (h : find_matching_request_keyed timeout now m = (none, m₁)) :
    handle_button_response timeout now eid m = (none, m₁) := by
  unfold handle_button_response
  rw [h]

/-! ## Per-call lemmas for the engine transition system -/

theorem step_keys_subset {timeout : Int} {op : EngineOp} {m : PendingMap}
    {a : String} (h : a ∈ alistKeys (step timeout op m).2) :
    a ∈ alistKeys m ∨ a ∈ insertedKeysOf timeout op m := by
  cases op with
  | register track mid n =>
      simp only [step, register_request] at h
      rcases mem_keys_of_mem_insert h with h' | rfl
      · left; exact h'
      · right; simp [insertedKeysOf]
  | matchFile sim fn md n => left; exact fbmr_keys_subset h
  | matchFifo n => left; exact fmrk_keys_subset h
  | matchNotFound n => left; exact fmrk_keys_subset h
  | matchButton eid n =>
      rcases hf : find_matching_request_keyed timeout n m with ⟨o, m₁⟩
      cases o with
      | none =>
          left
          simp only [step] at h
          rw [hbr_none hf] at h
          exact fmrk_keys_subset (by rw [hf]; exact h)
      | some kr =>
          obtain ⟨k, matched⟩ := kr
          simp only [step] at h
          rw [hbr_some hf] at h
          rcases mem_keys_of_mem_insert h with h' | rfl
          · left; exact fmrk_keys_subset (by rw [hf]; exact h')
          · right
            simp [insertedKeysOf, hf]

theorem step_consumed {timeout : Int} {op : EngineOp} {m m' : PendingMap}
    {k : String} {r : PendingRequest}
    (hstep : step timeout op m = (some (k, r), m'))
    (hfresh : ∀ i ∈ insertedKeysOf timeout op m, i ∉ alistKeys m) :
    k ∈ alistKeys m ∧ k ∉ alistKeys m' := by
  cases op with
  | register track mid n =>
      exfalso
      simp only [step] at hstep
      rw [Prod.mk.injEq] at hstep
      cases hstep.1
  | matchFile sim fn md n =>
      simp only [step] at hstep
      exact fbmr_consumed_not_mem hstep
  | matchFifo n =>
      simp only [step] at hstep
      obtain ⟨hmem, -, -⟩ := fmrk_some hstep
      exact ⟨mem_keys_of_mem_keys_cleanup (List.mem_map.mpr ⟨(k, r), hmem, rfl⟩),
        fmrk_consumed_not_mem hstep⟩
  | matchNotFound n =>
      simp only [step] at hstep
      obtain ⟨hmem, -, -⟩ := fmrk_some hstep
      exact ⟨mem_keys_of_mem_keys_cleanup (List.mem_map.mpr ⟨(k, r), hmem, rfl⟩),
        fmrk_consumed_not_mem hstep⟩
  | matchButton eid n =>
      simp only [step] at hstep
      rcases hf : find_matching_request_keyed timeout n m with ⟨o, m₁⟩
      cases o with
      | none =>
          rw [hbr_none hf, Prod.mk.injEq] at hstep
          cases hstep.1
      | some kr =>
          obtain ⟨k₀, matched⟩ := kr
          rw [hbr_some hf, Prod.mk.injEq] at hstep
          obtain ⟨h₁, h₂⟩ := hstep
          have hk := congrArg (fun o => (Option.getD o (k₀, matched)).1) h₁
          have hr := congrArg (fun o => (Option.getD o (k₀, matched)).2) h₁
          simp only [Option.getD_some] at hk hr
          subst hk
          subst hr
          obtain ⟨hmem, -, -⟩ := fmrk_some hf
          have hkm : k₀ ∈ alistKeys m :=
            mem_keys_of_mem_keys_cleanup (List.mem_map.mpr ⟨(k₀, matched), hmem, rfl⟩)
          refine ⟨hkm, fun hk' => ?_⟩
          rw [← h₂] at hk'
          rcases mem_keys_of_mem_insert hk' with h' | heq
          · exact fmrk_consumed_not_mem hf h'
          · have hnew : request_key eid matched.track.id ∈
                insertedKeysOf timeout (EngineOp.matchButton eid n) m := by
              simp [insertedKeysOf, hf]
            rw [heq] at hkm
            exact hfresh _ hnew hkm

theorem consumedKeys_cons_some (k : String) (r : PendingRequest)
    (rs : List (Option (String × PendingRequest))) :
    consumedKeys (some (k, r) :: rs) = k :: consumedKeys rs := rfl

theorem consumedKeys_cons_none
    (rs : List (Option (String × PendingRequest))) :
    consumedKeys (none :: rs) = consumedKeys rs := rfl

/-- The heart of the at-most-once invariant: along any fresh run, the
consumed keys extend a disjoint-from-the-map accumulator without
duplication. -/
theorem freshRun_consumed_nodup (timeout : Int) :
    ∀ (ops : List EngineOp) (m : PendingMap) (consumed : List String),
      consumed.Nodup → (∀ c ∈ consumed, c ∉ alistKeys m) →
      freshRun timeout m consumed ops = true →
      (consumed ++ consumedKeys (runEngine timeout m ops).1).Nodup := by
  intro ops
  induction ops with
  | nil =>
      intro m consumed hnd _ _
      simpa [runEngine, consumedKeys] using hnd
  | cons op ops ih =>
      intro m consumed hnd hinv hfr
      simp only [freshRun, Bool.and_eq_true, List.all_eq_true] at hfr
      obtain ⟨hfreshb, hrest⟩ := hfr
      have hfresh : ∀ i ∈ insertedKeysOf timeout op m,
          i ∉ alistKeys m ∧ i ∉ consumed := by
        intro i hi
        exact of_decide_eq_true (hfreshb i hi)
      rcases hs : step timeout op m with ⟨o, m'⟩
      rw [hs] at hrest
      cases o with
      | none =>
          have hrest' : freshRun timeout m' consumed ops = true := by
            simpa using hrest
          have hinv' : ∀ c ∈ consumed, c ∉ alistKeys m' := by
            intro c hc hmem
            rcases step_keys_subset (a := c) (by rw [hs]; exact hmem) with h' | h'
            · exact hinv c hc h'
            · exact (hfresh c h').2 hc
          have hres := ih m' consumed hnd hinv' hrest'
          simp only [runEngine, hs, consumedKeys, List.filterMap_cons]
          simpa [consumedKeys] using hres
      | some kr =>
          obtain ⟨k, r⟩ := kr
          have hrest' : freshRun timeout m' (consumed ++ [k]) ops = true := by
            simpa using hrest
          have hcons := step_consumed hs (fun i hi => (hfresh i hi).1)
          have hknot : k ∉ consumed := fun hc => hinv k hc hcons.1
          have hnd' : (consumed ++ [k]).Nodup := by
            rw [List.nodup_append]
            exact ⟨hnd, List.nodup_singleton k,
              fun a ha hb => by
                rw [List.mem_singleton] at hb
                exact hknot (hb ▸ ha)⟩
          have hinv' : ∀ c ∈ consumed ++ [k], c ∉ alistKeys m' := by
            intro c hc hmem
            rcases List.mem_append.mp hc with hc' | hc'
            · rcases step_keys_subset (a := c) (by rw [hs]; exact hmem) with h' | h'
              · exact hinv c hc' h'
              · exact (hfresh c h').2 hc'
            · rw [List.mem_singleton] at hc'
              exact hcons.2 (hc' ▸ hmem)
          have hres := ih m' (consumed ++ [k]) hnd' hinv' hrest'
          simp only [runEngine, hs, consumedKeys, List.filterMap_cons]
          simpa [consumedKeys, List.append_assoc] using hres

/-! ## Similarity scoring lemmas -/

theorem similarity_signals_mem (sim : String → String → ℚ)
    (hsim : ∀ a b, 0 ≤ sim a b ∧ sim a b ≤ 100)
    (fn : String) (md : BotMetadata) (artist title : String) :
    ∀ sw ∈ similarity_signals sim fn md artist title,
      0 ≤ sw.1 ∧ sw.1 ≤ 100 ∧ 0 ≤ sw.2 := by
  intro sw hsw
  simp only [similarity_signals, List.mem_append] at hsw
  rcases hsw with (h | h) | h
  · split at h
    · simp only [List.mem_cons, List.not_mem_nil, or_false] at h
      rcases h with rfl | rfl
      · exact ⟨(hsim _ _).1, (hsim _ _).2, by norm_num⟩
      · exact ⟨(hsim _ _).1, (hsim _ _).2, by norm_num⟩
    · cases h
  · split at h
    · simp only [List.mem_cons, List.not_mem_nil, or_false] at h
      subst h
      exact ⟨(hsim _ _).1, (hsim _ _).2, by norm_num⟩
    · cases h
  · split at h
    · simp only [List.mem_cons, List.not_mem_nil, or_false] at h
      subst h
      exact ⟨(hsim _ _).1, (hsim _ _).2, by norm_num⟩
    · cases h

theorem sum_weighted_nonneg :
    ∀ (scores : List (ℚ × ℚ)), (∀ sw ∈ scores, 0 ≤ sw.1 ∧ 0 ≤ sw.2) →
      0 ≤ (scores.map (fun sw => sw.1 * sw.2)).sum := by
  intro scores
  induction scores with
  | nil => intro _; simp
  | cons hd tl ih =>
      intro h
      simp only [List.map_cons, List.sum_cons]
      have hhd := h hd (List.mem_cons_self hd tl)
      have htl := ih (fun sw hsw => h sw (List.mem_cons_of_mem hd hsw))
      have hmul : 0 ≤ hd.1 * hd.2 := mul_nonneg hhd.1 hhd.2
      linarith

theorem sum_weighted_le_hundred :
    ∀ (scores : List (ℚ × ℚ)), (∀ sw ∈ scores, sw.1 ≤ 100 ∧ 0 ≤ sw.2) →
      (scores.map (fun sw => sw.1 * sw.2)).sum ≤
        100 * (scores.map (fun sw => sw.2)).sum := by
  intro scores
  induction scores with
  | nil => intro _; simp
  | cons hd tl ih =>
      intro h
      simp only [List.map_cons, List.sum_cons]
      have hhd := h hd (List.mem_cons_self hd tl)
      have htl := ih (fun sw hsw => h sw (List.mem_cons_of_mem hd hsw))
      have hmul : hd.1 * hd.2 ≤ 100 * hd.2 :=
        mul_le_mul_of_nonneg_right hhd.1 hhd.2
      linarith

theorem calculate_similarity_bounds (sim : String → String → ℚ)
    (hsim : ∀ a b, 0 ≤ sim a b ∧ sim a b ≤ 100)
    (fn : String) (md : BotMetadata) (artist title : String) :
    0 ≤ calculate_track_similarity sim fn md artist title ∧
    calculate_track_similarity sim fn md artist title ≤ 100 := by
  have hmem := similarity_signals_mem sim hsim fn md artist title
  simp only [calculate_track_similarity]
  split_ifs with h1 h2
  · norm_num
  · constructor
    · exact div_nonneg
        (sum_weighted_nonneg _ (fun sw hsw => ⟨(hmem sw hsw).1, (hmem sw hsw).2.2⟩))
        (le_of_lt h2)
    · rw [div_le_iff₀ h2]
      exact sum_weighted_le_hundred _
        (fun sw hsw => ⟨(hmem sw hsw).2.1, (hmem sw hsw).2.2⟩)
  · norm_num

theorem calculate_eq_spec (sim : String → String → ℚ)
    (fn : String) (md : BotMetadata) (artist title : String) :
    calculate_track_similarity sim fn md artist title =
      similarity_spec sim fn md artist title := by
  by_cases hf : fn = "" <;> by_cases hp : md.performer = "" <;>
    by_cases ht : md.title = "" <;>
    simp only [calculate_track_similarity, similarity_signals, similarity_spec,
      hf, hp, ht, ne_eq, not_true_eq_false, not_false_eq_true, if_true,
      if_false, ite_true, ite_false, List.append_nil, List.nil_append,
      List.cons_append, List.map_cons, List.map_nil, List.sum_cons,
      List.sum_nil] <;>
    norm_num <;> ring_nf <;> simp

/-! ## The safety-valve cleanup -/

theorem cleanup_orphaned_big {m : PendingMap} (h : 50 < m.length) :
    (cleanup_orphaned_requests m).length = 30 ∧
    (↑(cleanup_orphaned_requests m) : Multiset (String × PendingRequest)) ≤
      ↑m ∧
    ∀ kept ∈ cleanup_orphaned_requests m,
      ∀ dr ∈ ((↑m : Multiset (String × PendingRequest)) -
          ↑(cleanup_orphaned_requests m)),
        dr.2.sent_at ≤ kept.2.sent_at := by
  have hle : cleanup_orphaned_requests m =
      (m.mergeSort (fun a b => decide (b.2.sent_at ≤ a.2.sent_at))).take 30 := by
    unfold cleanup_orphaned_requests
    rw [if_pos h]
  have hperm : (m.mergeSort (fun a b => decide (b.2.sent_at ≤ a.2.sent_at))).Perm m :=
    List.mergeSort_perm m _
  have hlen : (m.mergeSort (fun a b => decide (b.2.sent_at ≤ a.2.sent_at))).length =
      m.length := hperm.length_eq
  have htd := List.take_append_drop 30
    (m.mergeSort (fun a b => decide (b.2.sent_at ≤ a.2.sent_at)))
  have hcoeS : (↑m : Multiset (String × PendingRequest)) =
      ↑(m.mergeSort (fun a b => decide (b.2.sent_at ≤ a.2.sent_at))) :=
    (Multiset.coe_eq_coe.mpr hperm).symm
  have hcoe : (↑m : Multiset (String × PendingRequest)) =
      ↑((m.mergeSort (fun a b => decide (b.2.sent_at ≤ a.2.sent_at))).take 30) +
      ↑((m.mergeSort (fun a b => decide (b.2.sent_at ≤ a.2.sent_at))).drop 30) := by
    rw [hcoeS, Multiset.coe_add, htd]
  have htrans : ∀ (a b c : String × PendingRequest),
      (fun a b => decide (b.2.sent_at ≤ a.2.sent_at)) a b = true →
      (fun a b => decide (b.2.sent_at ≤ a.2.sent_at)) b c = true →
      (fun a b => decide (b.2.sent_at ≤ a.2.sent_at)) a c = true := by
    intro a b c hab hbc
    simp only [decide_eq_true_eq] at hab hbc ⊢
    exact le_trans hbc hab
  have htotal : ∀ (a b : String × PendingRequest),
      ((fun a b => decide (b.2.sent_at ≤ a.2.sent_at)) a b ||
       (fun a b => decide (b.2.sent_at ≤ a.2.sent_at)) b a) = true := by
    intro a b
    simp only [Bool.or_eq_true, decide_eq_true_eq]
    exact le_total b.2.sent_at a.2.sent_at
  have hpw := List.sorted_mergeSort htrans htotal m
  rw [← htd, List.pairwise_append] at hpw
  obtain ⟨-, -, hcross⟩ := hpw
  refine ⟨?_, ?_, ?_⟩
  · rw [hle, List.length_take, hlen]
    omega
  · rw [hle, hcoe]
    exact Multiset.le_add_right _ _
  · intro kept hkept dr hdr
    rw [hle] at hkept
    have hdiff : ((↑m : Multiset (String × PendingRequest)) -
        ↑(cleanup_orphaned_requests m)) =
        ↑((m.mergeSort (fun a b => decide (b.2.sent_at ≤ a.2.sent_at))).drop 30) := by
      rw [hle, hcoe, add_tsub_cancel_left]
    rw [hdiff, Multiset.mem_coe] at hdr
    have := hcross kept hkept dr hdr
    simpa [decide_eq_true_eq] using this

theorem cleanup_orphaned_small {m : PendingMap} (h : m.length ≤ 50) :
    cleanup_orphaned_requests m = m := by
  unfold cleanup_orphaned_requests
  rw [if_neg (not_lt.mpr h)]

/-! ## Persistence round-trip lemmas -/

theorem trackStatus_roundtrip (st : TrackStatus) :
    trackStatusOfString st.value = some st := by
  cases st <;> rfl

theorem track_roundtrip (t : TrackProgress) :
    track_from_json (track_to_json t) = some t := by
  simp only [track_from_json, track_to_json, trackStatus_roundtrip]

theorem load_tracks_roundtrip :
    ∀ (ts : List (String × TrackProgress)),
      load_tracks (ts.map (fun kv => (kv.1, track_to_json kv.2))) = some ts := by
  intro ts
  induction ts with
  | nil => rfl
  | cons hd tl ih =>
      simp only [List.map_cons, load_tracks, track_roundtrip, ih]

/-! ## Session state-machine lemmas -/

theorem update_track_status_noop {st : ProgressTracker} {track_id : String}
    (h : trackIn st track_id = none) (status : TrackStatus)
    (em fp : Option String) (fs : Nat) (now : String) :
    update_track_status st track_id status em fp fs now = (st, false) := by
  unfold update_track_status
  split
  next hcs => rfl
  next sess hcs =>
      simp only [trackIn, hcs] at h
      rw [h]

theorem mark_failed_noop {st : ProgressTracker} {track_id : String}
    (h : trackIn st track_id = none) (msg now : String) :
    mark_track_failed st track_id msg now = (st, false) :=
  update_track_status_noop h _ _ _ _ _

theorem alistLookup_map_ite_self {α : Type} (track_id : String) (t' : α) :
    ∀ (l : List (String × α)),
      alistLookup track_id
          (l.map (fun kv => if kv.1 = track_id then (kv.1, t') else kv)) =
        (alistLookup track_id l).map (fun _ => t') := by
  intro l
  induction l with
  | nil => rfl
  | cons hd tl ih =>
      by_cases hhd : hd.1 = track_id
      · simp [alistLookup, hhd]
      · simp only [List.map_cons, if_neg hhd, alistLookup]
        exact ih

theorem alistLookup_map_ite_ne {α : Type} {j track_id : String}
    (hne : j ≠ track_id) (t' : α) :
    ∀ (l : List (String × α)),
      alistLookup j
          (l.map (fun kv => if kv.1 = track_id then (kv.1, t') else kv)) =
        alistLookup j l := by
  intro l
  induction l with
  | nil => rfl
  | cons hd tl ih =>
      by_cases hhd : hd.1 = track_id
      · have hj : ¬ hd.1 = j := fun hh => hne (hh.symm.trans hhd)
        simp only [List.map_cons, if_pos hhd, alistLookup]
        rw [if_neg hj, if_neg hj]
        exact ih
      · simp only [List.map_cons, if_neg hhd, alistLookup]
        by_cases hj : hd.1 = j
        · rw [if_pos hj, if_pos hj]
        · rw [if_neg hj, if_neg hj]
          exact ih

theorem mark_failed_session_some {st : ProgressTracker} {track_id : String}
    {tp : TrackProgress} {sess : SessionProgress}
    (hcs : st.current_session = some sess)
    (hlk : alistLookup track_id sess.tracks = some tp) (msg now : String) :
    (mark_track_failed st track_id msg now).1.current_session =
      some { sess with
        tracks := sess.tracks.map (fun kv =>
          if kv.1 = track_id then
            (kv.1, { tp with
              status := TrackStatus.failed
              last_attempt := some now
              attempts := tp.attempts + 1
              error_message := some msg }) else kv)
        last_updated := now } := by
  simp only [mark_track_failed, update_track_status, hcs, hlk]
  rfl

theorem trackIn_mark_failed_self {st : ProgressTracker} {track_id : String}
    {tp : TrackProgress} (h : trackIn st track_id = some tp) (msg now : String) :
    trackIn (mark_track_failed st track_id msg now).1 track_id =
      some { tp with
        status := TrackStatus.failed
        last_attempt := some now
        attempts := tp.attempts + 1
        error_message := some msg } := by
  rcases hcs : st.current_session with _ | sess
  · simp only [trackIn, hcs] at h
    cases h
  · have hlk : alistLookup track_id sess.tracks = some tp := by
      simpa [trackIn, hcs] using h
    simp only [trackIn, mark_failed_session_some hcs hlk msg now,
      alistLookup_map_ite_self, hlk, Option.map_some']

theorem trackIn_mark_failed_ne {st : ProgressTracker} {track_id j : String}
    (hne : j ≠ track_id) (msg now : String) :
    trackIn (mark_track_failed st track_id msg now).1 j = trackIn st j := by
  rcases hcs : st.current_session with _ | sess
  · have hnone : trackIn st track_id = none := by simp [trackIn, hcs]
    rw [mark_failed_noop hnone msg now]
  · rcases hlk : alistLookup track_id sess.tracks with _ | tp
    · have hnone : trackIn st track_id = none := by simp [trackIn, hcs, hlk]
      rw [mark_failed_noop hnone msg now]
    · simp only [trackIn, mark_failed_session_some hcs hlk msg now, hcs,
        alistLookup_map_ite_ne hne]

theorem trackIn_mark_failed_isSome {st : ProgressTracker} {track_id j : String}
    (h : (trackIn st j).isSome) (msg now : String) :
    (trackIn (mark_track_failed st track_id msg now).1 j).isSome := by
  by_cases hj : j = track_id
  · subst hj
    rcases hlk : trackIn st j with _ | tp
    · rw [hlk] at h
      cases h
    · rw [trackIn_mark_failed_self hlk msg now]
      rfl
  · rw [trackIn_mark_failed_ne hj msg now]
    exact h

theorem foldl_mark_frame (msg now : String) :
    ∀ (l : List String) (st : ProgressTracker) (j : String), j ∉ l →
      trackIn (l.foldl (fun acc id => (mark_track_failed acc id msg now).1) st)
          j =
        trackIn st j := by
  intro l
  induction l with
  | nil => intro st j _; rfl
  | cons hd tl ih =>
      intro st j hj
      rw [List.foldl_cons]
      rw [ih _ j (fun hh => hj (List.mem_cons_of_mem hd hh))]
      exact trackIn_mark_failed_ne
        (fun hh => hj (by rw [hh]; exact List.mem_cons_self hd tl)) msg now

theorem foldl_mark_failed_status (msg now : String) :
    ∀ (l : List String) (st : ProgressTracker) (j : String),
      j ∈ l → (trackIn st j).isSome →
      (trackIn (l.foldl (fun acc id => (mark_track_failed acc id msg now).1) st)
          j).map (fun t => (t.status, t.error_message)) =
        some (TrackStatus.failed, some msg) := by
  intro l
  induction l with
  | nil => intro st j hj _; cases hj
  | cons hd tl ih =>
      intro st j hj hsome
      rw [List.foldl_cons]
      by_cases hjtl : j ∈ tl
      · exact ih _ j hjtl (trackIn_mark_failed_isSome hsome msg now)
      · have hjhd : j = hd := by
          rcases List.mem_cons.mp hj with h | h
          · exact h
          · exact absurd h hjtl
        subst hjhd
        rcases hlk : trackIn st j with _ | tp
        · rw [hlk] at hsome
          cases hsome
        · rw [foldl_mark_frame msg now tl _ j hjtl,
            trackIn_mark_failed_self hlk msg now]
          rfl

/-! ## Claim theorems -/

/-- C1: At-most-once matching.  Along any sequence of register and match
calls on the Correlation Engine in which every inserted correlation token
is fresh (the spec's "unique correlation token" contract), the keys of the
pending entries returned by the match calls (content-similarity, FIFO,
button, not-found) contain no duplicate: no two distinct match calls ever
return the same PendingRequest, and each returned request is removed from
the pending set by its call. -/
theorem c1_at_most_once_matching (timeout : Int) (m : PendingMap)
    (ops : List EngineOp) (hfresh : freshRun timeout m [] ops = true) :
    (consumedKeys (runEngine timeout m ops).1).Nodup := by
  have h := freshRun_consumed_nodup timeout ops m [] List.nodup_nil
    (fun c hc => absurd hc (List.not_mem_nil c)) hfresh
  simpa using h

/-- Witness for C1: a concrete fresh run (two registrations, then one
button, one file, one not-found and one FIFO match) consumes three
pairwise distinct pending entries. -/
theorem c1_witness :
    freshRun 300 [] [] exOps = true ∧
    (consumedKeys (runEngine 300 [] exOps).1).Nodup :=
  ⟨by decide, c1_at_most_once_matching 300 [] exOps (by decide)⟩

/-- C2: A content-similarity match is accepted exactly when the best score
reaches 70: if the best-score loop yields `(some kr, bs)` with `70 ≤ bs`
the call returns `kr` (whose score is `bs`, maximal over the purged
pending set) and erases it; with `bs < 70` the call equals the FIFO
fallback, which returns a live entry of minimal `sent_at` and erases it;
and every entry of the resulting pending set is within the
response-timeout window (expired requests are removed as a side effect of
the call). -/
theorem c2_threshold_and_fifo (sim : String → String → ℚ) (timeout now : Int)
    (fn : String) (md : BotMetadata) (m : PendingMap) :
    (∀ kv ∈ (find_best_matching_request sim timeout now fn md m).2,
        now - timeout < kv.2.sent_at) ∧
    (∀ kr bs,
      bestScoreAux (fileEventScore sim fn md) (none, 0)
          (cleanupExpiredRequests timeout now m) = (some kr, bs) →
      (70 ≤ bs →
        find_best_matching_request sim timeout now fn md m =
          (some kr, alistErase kr.1 (cleanupExpiredRequests timeout now m)) ∧
        fileEventScore sim fn md kr = bs ∧
        ∀ x ∈ cleanupExpiredRequests timeout now m,
          fileEventScore sim fn md x ≤ bs) ∧
      (bs < 70 →
        find_best_matching_request sim timeout now fn md m =
          find_matching_request_keyed timeout now m)) ∧
    (∀ k r m₂,
      find_matching_request_keyed timeout now m = (some (k, r), m₂) →
      (k, r) ∈ m ∧ now - timeout < r.sent_at ∧
      (∀ x ∈ cleanupExpiredRequests timeout now m, r.sent_at ≤ x.2.sent_at) ∧
      m₂ = alistErase k (cleanupExpiredRequests timeout now m)) := by
  refine ⟨?_, ?_, ?_⟩
  · intro kv hkv
    rcases fbmr_cases sim timeout now fn md m with ⟨-, heq⟩ |
        ⟨kr, bs, -, -, heq⟩ | ⟨-, -, heq⟩
    · rw [heq] at hkv
      cases hkv
    · rw [heq] at hkv
      exact (mem_cleanup_iff.mp (mem_erase_of_mem hkv)).2
    · rw [heq] at hkv
      rcases hres : find_matching_request_keyed timeout now m with ⟨o, m₂⟩
      rw [hres] at hkv
      cases o with
      | none =>
          obtain ⟨-, rfl⟩ := fmrk_none hres
          cases hkv
      | some kr' =>
          obtain ⟨k', r'⟩ := kr'
          obtain ⟨-, -, rfl⟩ := fmrk_some hres
          exact (mem_cleanup_iff.mp (mem_erase_of_mem hkv)).2
  · intro kr bs haux
    constructor
    · intro h70
      rcases fbmr_cases sim timeout now fn md m with ⟨hl, -⟩ |
          ⟨kr', bs', haux', h70', heq⟩ | ⟨-, hlow, -⟩
      · rw [hl] at haux
        simp only [bestScoreAux, Prod.mk.injEq] at haux
        cases haux.1
      · rw [haux] at haux'
        rw [Prod.mk.injEq] at haux'
        obtain ⟨h₁, h₂⟩ := haux'
        obtain rfl : kr = kr' := Option.some.inj h₁
        subst h₂
        refine ⟨heq, ?_, ?_⟩
        · rcases @bestScoreAux_inv (fileEventScore sim fn md)
              (cleanupExpiredRequests timeout now m) (none, 0)
              (Or.inl rfl) with hnone | ⟨a, ha1, ha2⟩
          · rw [haux] at hnone
            cases hnone
          · rw [haux] at ha1 ha2
            obtain rfl : kr = a := Option.some.inj ha1
            exact ha2.symm
        · intro x hx
          have := @bestScoreAux_max (fileEventScore sim fn md)
            (cleanupExpiredRequests timeout now m)
            ((none : Option (String × PendingRequest)), (0 : ℚ)) x hx
          rw [haux] at this
          exact this
      · exact absurd h70 (not_le.mpr (hlow kr bs haux))
    · intro hlow
      rcases fbmr_cases sim timeout now fn md m with ⟨hl, heq⟩ |
          ⟨kr', bs', haux', h70', heq⟩ | ⟨-, -, heq⟩
      · rw [hl] at haux
        simp only [bestScoreAux, Prod.mk.injEq] at haux
        cases haux.1
      · rw [haux] at haux'
        rw [Prod.mk.injEq] at haux'
        rw [← haux'.2] at h70'
        exact absurd h70' (not_le.mpr hlow)
      · exact heq
  · intro k r m₂ hres
    obtain ⟨hmem, hmin, hm₂⟩ := fmrk_some hres
    exact ⟨(mem_cleanup_iff.mp hmem).1, (mem_cleanup_iff.mp hmem).2, hmin, hm₂⟩

/-- Witness for C2: with a similarity primitive scoring everything 100,
the file event is accepted by content similarity (best score 100 ≥ 70) and
the matched entry is erased. -/
theorem c2_witness :
    bestScoreAux (fileEventScore simHundred "file.flac" {}) (none, 0)
        (cleanupExpiredRequests 300 0 exMap1) =
      (some ("msg_1_trackAAA", exReqA), 100) ∧
    find_best_matching_request simHundred 300 0 "file.flac" {} exMap1 =
      (some ("msg_1_trackAAA", exReqA),
       alistErase "msg_1_trackAAA" (cleanupExpiredRequests 300 0 exMap1)) := by
  have hfn : ("file.flac" : String) ≠ "" := by decide
  have hscore : ∀ a t : String,
      calculate_track_similarity simHundred "file.flac" {} a t = 100 := by
    intro a t
    simp only [calculate_track_similarity, similarity_signals, simHundred, hfn,
      ne_eq, not_false_eq_true, if_true, ite_true, ite_false,
      List.append_nil, List.nil_append, List.map_cons, List.map_nil,
      List.sum_cons, List.sum_nil]
    norm_num
    simp
  have haux : bestScoreAux (fileEventScore simHundred "file.flac" {}) (none, 0)
      (cleanupExpiredRequests 300 0 exMap1) =
      (some ("msg_1_trackAAA", exReqA), 100) := by
    have hlive : cleanupExpiredRequests 300 0 exMap1 =
        [("msg_1_trackAAA", exReqA)] := by decide
    rw [hlive]
    simp only [bestScoreAux, fileEventScore, hscore]
    norm_num
  exact ⟨haux,
    (((c2_threshold_and_fifo simHundred 300 0 "file.flac" {} exMap1).2.1
      ("msg_1_trackAAA", exReqA) 100 haux).1 (by norm_num)).1⟩

/-- C3: The similarity score equals the weighted average, over exactly the
signals present, of the similarities of the normalized texts (weights 0.6,
0.3, 0.4, 0.5 as in the spec; normalization = lowercase, `feat.` →
`featuring`, `&` → `and`, trim, and extension stripping for the filename);
it lies in `[0, 100]` whenever the external similarity primitive does, and
is 0 when no signal is present. -/
theorem c3_similarity_score (sim : String → String → ℚ)
    (hsim : ∀ a b, 0 ≤ sim a b ∧ sim a b ≤ 100)
    (fn : String) (md : BotMetadata) (artist title : String) :
    calculate_track_similarity sim fn md artist title =
      similarity_spec sim fn md artist title ∧
    0 ≤ calculate_track_similarity sim fn md artist title ∧
    calculate_track_similarity sim fn md artist title ≤ 100 ∧
    (fn = "" → md.performer = "" → md.title = "" →
      calculate_track_similarity sim fn md artist title = 0) := by
  refine ⟨calculate_eq_spec sim fn md artist title,
    (calculate_similarity_bounds sim hsim fn md artist title).1,
    (calculate_similarity_bounds sim hsim fn md artist title).2, ?_⟩
  intro hf hp ht
  simp [calculate_track_similarity, similarity_signals, hf, hp, ht]

/-- Witness for C3: a concrete instantiation with the constant-100
similarity primitive. -/
theorem c3_witness :
    calculate_track_similarity simHundred "Alpha.flac" {} "ArtistA" "Alpha" =
      similarity_spec simHundred "Alpha.flac" {} "ArtistA" "Alpha" ∧
    0 ≤ calculate_track_similarity simHundred "Alpha.flac" {} "ArtistA"
        "Alpha" :=
  ⟨(c3_similarity_score simHundred
      (fun _ _ => ⟨by norm_num [simHundred], by norm_num [simHundred]⟩)
      "Alpha.flac" {} "ArtistA" "Alpha").1,
   (c3_similarity_score simHundred
      (fun _ _ => ⟨by norm_num [simHundred], by norm_num [simHundred]⟩)
      "Alpha.flac" {} "ArtistA" "Alpha").2.1⟩

/-- C4 (amended): when `_wait_for_batch_completion` reaches its timeout —
which happens for every batch whose end lies before the end of the track
list, i.e. every batch except the final one — each track of the batch that
is not COMPLETED or FAILED is force-marked FAILED with reason
"Batch timeout", and tracks already terminal are left untouched; so no
track of such a batch remains PENDING, SENT_TO_BOT or DOWNLOADING after
the wait returns.  (The final batch is exempt: see the counterexample.) -/
theorem c4_batch_timeout_forcing (st : ProgressTracker)
    (sess : SessionProgress) (batch_ids : List String) (now : String)
    (id : String) (tp : TrackProgress)
    (hcs : st.current_session = some sess) (hid : id ∈ batch_ids)
    (hlk : alistLookup id sess.tracks = some tp) :
    ((tp.status = TrackStatus.completed ∨ tp.status = TrackStatus.failed) →
      trackIn (wait_for_batch_completion_force st batch_ids now) id =
        some tp) ∧
    (¬ (tp.status = TrackStatus.completed ∨ tp.status = TrackStatus.failed) →
      (trackIn (wait_for_batch_completion_force st batch_ids now) id).map
          (fun t => (t.status, t.error_message)) =
        some (TrackStatus.failed, some "Batch timeout")) := by
  unfold wait_for_batch_completion_force
  rw [hcs]
  constructor
  · intro hterm
    have hnotmem : id ∉ batch_ids.filter (fun track_id =>
        match alistLookup track_id sess.tracks with
        | some t =>
            !(t.status = TrackStatus.completed ∨ t.status = TrackStatus.failed :
              Bool)
        | none => false) := by
      intro hmem
      have hpred := (List.mem_filter.mp hmem).2
      rw [hlk] at hpred
      simp only [Bool.not_eq_true'] at hpred
      rw [decide_eq_false_iff_not] at hpred
      exact hpred hterm
    rw [foldl_mark_frame _ now _ st id hnotmem]
    simp [trackIn, hcs, hlk]
  · intro hterm
    have hmem : id ∈ batch_ids.filter (fun track_id =>
        match alistLookup track_id sess.tracks with
        | some t =>
            !(t.status = TrackStatus.completed ∨ t.status = TrackStatus.failed :
              Bool)
        | none => false) := by
      refine List.mem_filter.mpr ⟨hid, ?_⟩
      rw [hlk]
      simp only [Bool.not_eq_true']
      rw [decide_eq_false_iff_not]
      exact hterm
    exact foldl_mark_failed_status _ now _ st id hmem
      (by simp [trackIn, hcs, hlk])

/-- Witness for C4: forcing a one-track batch whose track is still PENDING
marks it FAILED with reason "Batch timeout". -/
theorem c4_witness :
    ¬ (exProgress1.status = TrackStatus.completed ∨
       exProgress1.status = TrackStatus.failed) ∧
    (trackIn (wait_for_batch_completion_force exTracker1 ["trackAAAA0001"]
          "T1") "trackAAAA0001").map (fun t => (t.status, t.error_message)) =
      some (TrackStatus.failed, some "Batch timeout") :=
  ⟨by decide,
   (c4_batch_timeout_forcing exTracker1 exSession1 ["trackAAAA0001"] "T1"
      "trackAAAA0001" exProgress1 rfl (by decide) (by decide)).2 (by decide)⟩

/-- Counterexample for C4 as stated: the batch-timeout forcing is invoked
only when `batch_end < total_tracks` (`main.py` line 445), so the final
batch is never forced.  Running the batched/parallel loop on a one-track
list (its only batch is the final one) under the schedule in which the bot
never responds and every wait times out leaves the track SENT_TO_BOT —
not FAILED — after the run completes, contradicting the claim's "this
holds for every batch, including the final batch". -/
theorem c4_counterexample :
    (trackIn (process_tracks_no_responses exTracker1 [exTrackA] 10 "T1")
        "trackAAAA0001").map (fun t => t.status) =
      some TrackStatus.sent_to_bot := by
  decide

/-- C5: persisted-file round-trip.  Saving a session (which stamps
`last_updated`) and loading it back restores the session — in particular
every `TrackProgress` record, every one of its fields, and the status enum
from its string encoding. -/
theorem c5_roundtrip (sess : SessionProgress) (now : String) :
    load_session (save_progress sess now) =
      some { sess with last_updated := now } ∧
    (load_session (save_progress sess now)).map SessionProgress.tracks =
      some sess.tracks ∧
    ∀ st : TrackStatus, trackStatusOfString st.value = some st := by
  have h1 : load_session (save_progress sess now) =
      some { sess with last_updated := now } := by
    simp only [load_session, save_progress, load_tracks_roundtrip]
  exact ⟨h1, by rw [h1]; rfl, trackStatus_roundtrip⟩

/-- C6: a button-prompt event matched via the FIFO aging rule removes the
matched request and stores a new `PendingRequest` for the same track under
the token derived from the button event's message id, with `sent_at`
refreshed to the current time (so the file-download phase starts at age
zero); the matched request was live and oldest, and its key is gone from
the surviving map. -/
theorem c6_button_rematch (timeout now : Int) (eid : Nat) (m m₁ : PendingMap)
    (k : String) (matched : PendingRequest)
    (h : find_matching_request_keyed timeout now m = (some (k, matched), m₁)) :
    handle_button_response timeout now eid m =
      (some (k, matched),
       alistInsert (request_key eid matched.track.id)
         { track := matched.track
           track_name := matched.track_name
           sent_at := now
           message_id := eid } m₁) ∧
    alistLookup (request_key eid matched.track.id)
        (handle_button_response timeout now eid m).2 =
      some { track := matched.track
             track_name := matched.track_name
             sent_at := now
             message_id := eid } ∧
    (k, matched) ∈ cleanupExpiredRequests timeout now m ∧
    (∀ x ∈ cleanupExpiredRequests timeout now m,
      matched.sent_at ≤ x.2.sent_at) ∧
    k ∉ alistKeys m₁ := by
  obtain ⟨hmem, hmin, hm₁⟩ := fmrk_some h
  refine ⟨hbr_some h, ?_, hmem, hmin, ?_⟩
  · rw [hbr_some h]
    exact alistLookup_insert_self _ _ _
  · rw [hm₁]
    exact not_mem_keys_erase_self _ _

/-- Witness for C6: a concrete button event (message id 99) consumes the
oldest pending request and re-registers its track under the new token with
`sent_at` equal to the match time. -/
theorem c6_witness :
    find_matching_request_keyed 300 0 exMap2 =
      (some ("msg_1_trackAAA", exReqA), [("msg_2_trackBBB", exReqB)]) ∧
    alistLookup (request_key 99 exReqA.track.id)
        (handle_button_response 300 0 99 exMap2).2 =
      some { track := exReqA.track
             track_name := exReqA.track_name
             sent_at := 0
             message_id := 99 } :=
  ⟨by decide,
   (c6_button_rematch 300 0 99 exMap2 [("msg_2_trackBBB", exReqB)]
      "msg_1_trackAAA" exReqA (by decide)).2.1⟩

/-- C7: the safety valve leaves a pending set of at most 50 entries
unchanged; on a larger set it keeps exactly 30 entries, all drawn from the
original set, and every kept entry's `sent_at` is at least every dropped
entry's `sent_at` (the 30 most recent are retained). -/
theorem c7_safety_valve (m : PendingMap) :
    (m.length ≤ 50 → cleanup_orphaned_requests m = m) ∧
    (50 < m.length →
      (cleanup_orphaned_requests m).length = 30 ∧
      (↑(cleanup_orphaned_requests m) : Multiset (String × PendingRequest)) ≤
        ↑m ∧
      ∀ kept ∈ cleanup_orphaned_requests m,
        ∀ dr ∈ ((↑m : Multiset (String × PendingRequest)) -
            ↑(cleanup_orphaned_requests m)),
          dr.2.sent_at ≤ kept.2.sent_at) :=
  ⟨fun h => cleanup_orphaned_small h, fun h => cleanup_orphaned_big h⟩

/-- Witness for C7: a 51-entry pending set is cut down to exactly 30
entries. -/
theorem c7_witness :
    50 < exMap51.length ∧ (cleanup_orphaned_requests exMap51).length = 30 :=
  ⟨by decide, ((c7_safety_valve exMap51).2 (by decide)).1⟩

/-- C8 (amended): for a 1-based `start_from` within `1..n` the processed
list is the slice from that position, truncated by `limit` only when the
limit is positive (a non-positive or absent limit is ignored); a
`start_from` beyond the end is a hard input error; and a `start_from ≤ 0`
is not an error but is clamped to position 1. -/
theorem c8_slice_semantics (tracks : List Track) (start_from : Int)
    (limit : Option Int) :
    (1 ≤ start_from → start_from ≤ (tracks.length : Int) →
      start_new_session_slice tracks start_from limit =
        Except.ok (apply_limit limit (tracks.drop (start_from - 1).toNat))) ∧
    ((tracks.length : Int) < start_from →
      start_new_session_slice tracks start_from limit =
        Except.error ("Start position " ++ toString start_from ++
          " is beyond playlist length (" ++ toString tracks.length ++
          " tracks)")) ∧
    (start_from ≤ 0 → tracks ≠ [] →
      start_new_session_slice tracks start_from limit =
        Except.ok (apply_limit limit tracks)) := by
  simp only [start_new_session_slice]
  refine ⟨?_, ?_, ?_⟩
  · intro h1 h2
    have hmax : max 0 (start_from - 1) = start_from - 1 :=
      max_eq_right (by omega)
    rw [hmax, if_neg (by omega)]
  · intro h
    have hge : (tracks.length : Int) ≤ max 0 (start_from - 1) :=
      le_max_of_le_right (by omega)
    rw [if_pos hge]
  · intro h1 h2
    have hlen : 0 < tracks.length := List.length_pos.mpr h2
    have hmax : max 0 (start_from - 1) = 0 := max_eq_left (by omega)
    rw [hmax, if_neg (by omega)]
    simp

/-- Witness for C8: slicing a two-track list from position 2 with limit 1
keeps exactly the second track. -/
theorem c8_witness :
    (1 : Int) ≤ 2 ∧ (2 : Int) ≤ (([exTrackA, exTrackB] : List Track).length : Int) ∧
    start_new_session_slice [exTrackA, exTrackB] 2 (some 1) =
      Except.ok (apply_limit (some 1)
        (([exTrackA, exTrackB] : List Track).drop ((2 : Int) - 1).toNat)) :=
  ⟨by norm_num, by norm_num,
   (c8_slice_semantics [exTrackA, exTrackB] 2 (some 1)).1 (by norm_num)
     (by norm_num)⟩

/-- Counterexample for C8 as stated: `start_from = 0` names no valid
1-based position, yet the code clamps it and happily returns the whole
list instead of failing; and `limit = 0` does not truncate to 0 elements
— it is ignored. -/
theorem c8_counterexample :
    start_new_session_slice [exTrackA] 0 none = Except.ok [exTrackA] ∧
    start_new_session_slice [exTrackA, exTrackB] 1 (some 0) =
      Except.ok [exTrackA, exTrackB] := by
  constructor <;> rfl

/-- C9 (implicit): a file event goes unmatched exactly when the pending
set, purged of entries older than the response timeout, is empty; whenever
a live request exists the call returns one (via the FIFO fallback even
when every similarity score is below 70, including for events with no
filename and no metadata, which both this statement's arbitrary `fn`/`md`
cover). -/
theorem c9_never_unmatched_while_pending (sim : String → String → ℚ)
    (timeout now : Int) (fn : String) (md : BotMetadata) (m : PendingMap) :
    (find_best_matching_request sim timeout now fn md m).1 = none ↔
      cleanupExpiredRequests timeout now m = [] := by
  constructor
  · intro h
    rcases fbmr_cases sim timeout now fn md m with ⟨hl, -⟩ |
        ⟨kr, bs, -, -, heq⟩ | ⟨-, -, heq⟩
    · exact hl
    · rw [heq] at h
      cases h
    · rw [heq] at h
      rcases hres : find_matching_request_keyed timeout now m with ⟨o, m₂⟩
      rw [hres] at h
      cases o with
      | some kr =>
          simp at h
      | none => exact (fmrk_none hres).1
  · intro h
    have heq : find_best_matching_request sim timeout now fn md m =
        (none, cleanupExpiredRequests timeout now m) := by
      simp only [find_best_matching_request]
      rw [if_pos h]
    rw [heq]

/-- C10: every status-update operation invoked with no active session or
an unknown track id is a silent no-op: the tracker state is unchanged and
nothing is written to the progress file (the Bool component records
whether `save_progress` ran). -/
theorem c10_missing_track_noop (st : ProgressTracker) (track_id : String)
    (status : TrackStatus) (em fp : Option String) (fs : Nat) (now : String)
    (path msg reason : String) (sz : Nat)
    (h : trackIn st track_id = none) :
    update_track_status st track_id status em fp fs now = (st, false) ∧
    mark_track_sent st track_id now = (st, false) ∧
    mark_track_downloading st track_id now = (st, false) ∧
    mark_track_completed st track_id path sz now = (st, false) ∧
    mark_track_failed st track_id msg now = (st, false) ∧
    mark_track_skipped st track_id reason now = (st, false) :=
  ⟨update_track_status_noop h status em fp fs now,
   update_track_status_noop h _ _ _ _ _,
   update_track_status_noop h _ _ _ _ _,
   update_track_status_noop h _ _ _ _ _,
   update_track_status_noop h _ _ _ _ _,
   update_track_status_noop h _ _ _ _ _⟩

/-- Witness for C10: on a tracker with no active session, marking a track
sent changes nothing and writes nothing. -/
theorem c10_witness :
    trackIn exTrackerEmpty "trackAAAA0001" = none ∧
    mark_track_sent exTrackerEmpty "trackAAAA0001" "T1" =
      (exTrackerEmpty, false) :=
  ⟨rfl,
   (c10_missing_track_noop exTrackerEmpty "trackAAAA0001" TrackStatus.pending
      none none 0 "T1" "p" "m" "r" 0 rfl).2.1⟩

end TracksDownloader
